import Mathlib

/-!
Verification of `src/functions/private.ts` of the actions-tagger repository.

The TypeScript source is shallowly embedded: every function of the
`Functions.Private` namespace becomes a pure Lean definition.  Remote
collaborators (the GitHub REST/GraphQL client) are passed in explicitly as
response data, and effectful functions return the trace of remote calls they
would issue, so that the spec's claims about queries and mutations become
statements about those traces.
-/

namespace ActionsTagger

/-! ## String primitives

The JavaScript string operations the source uses (`startsWith`, `endsWith`,
`trim`) are embedded as structural functions on the underlying character
lists, so that every definition in this file evaluates by kernel
reduction. -/

/-- Boolean string matching at the front, on the underlying characters. -/
def listStarts : List Char → List Char → Bool
  | [], _ => true
  | _ :: _, [] => false
  | p :: ps, s :: ss => p == s && listStarts ps ss

/-- Does `s` start with the pattern `pat`?  Embeds
JavaScript's `String.prototype.startsWith`. -/
def strStarts (s pat : String) : Bool := listStarts pat.data s.data

/-- Does `s` end with the pattern `pat`?  Embeds
JavaScript's `String.prototype.endsWith`. -/
def strEnds (s pat : String) : Bool :=
  listStarts pat.data.reverse s.data.reverse

/-- Remove whitespace from both ends of a character list. -/
def trimChars (cs : List Char) : List Char :=
  ((cs.dropWhile Char.isWhitespace).reverse.dropWhile Char.isWhitespace).reverse

/-! ## SemVer values and the resolver

The source uses the npm `semver` library (`semver/functions/parse` and
`semver/functions/coerce`), which is a third-party dependency whose code is
not part of this repository.  `semverParse` and `coerce` below are modelled
from the spec's Resolver rules (strict semantic-version parsing returning
null on failure; best-effort numeric coercion) following the published
semver grammar `v?MAJOR.MINOR.PATCH[-PRERELEASE][+BUILD]` that the library
implements.  None of the claims below depends on the fine structure of these
two functions beyond totality and returning `none` on failure. -/

/-- A parsed semantic version: major, minor, patch, optional pre-release
identifiers (numeric or alphanumeric) and build metadata. -/
structure SemVer where
  major : Nat
  minor : Nat
  patch : Nat
  prerelease : List (Nat ⊕ String)
  build : List String
deriving DecidableEq

/-- Largest integer value a version component may take
(JavaScript's MAX_SAFE_INTEGER, used by the semver library). -/
def maxSafeInteger : Nat := 2 ^ 53 - 1

/-- Character class of semver identifiers: `[0-9A-Za-z-]`. -/
def isIdentChar (c : Char) : Bool := c.isDigit || c.isAlpha || c == '-'

/-- Numeric value of a digit string. -/
def digitsToNat (cs : List Char) : Nat :=
  cs.foldl (fun n c => n * 10 + (c.toNat - Char.toNat '0')) 0

/-- A canonical numeric identifier: nonempty, all digits, no leading zero. -/
def isCanonicalNum (cs : List Char) : Bool :=
  (!cs.isEmpty) && cs.all Char.isDigit &&
    (decide (cs = ['0']) || !(cs.head? == some '0'))

/-- Parse a MAJOR/MINOR/PATCH component: canonical numeral within the safe
integer range. -/
def parseMainNum (cs : List Char) : Option Nat :=
  if isCanonicalNum cs && decide (digitsToNat cs ≤ maxSafeInteger) then
    some (digitsToNat cs)
  else
    none

/-- Parse one pre-release identifier: either a canonical numeral (kept as a
number when it fits in a safe integer, as the library does) or a nonempty
alphanumeric identifier. -/
def parsePreIdent (cs : List Char) : Option (Nat ⊕ String) :=
  if cs.isEmpty then none
  else if !cs.all isIdentChar then none
  else if cs.all Char.isDigit then
    if isCanonicalNum cs then
      if digitsToNat cs < maxSafeInteger then some (Sum.inl (digitsToNat cs))
      else some (Sum.inr (String.mk cs))
    else none
  else some (Sum.inr (String.mk cs))

/-- Parse one build identifier: any nonempty run of identifier characters. -/
def parseBuildIdent (cs : List Char) : Option String :=
  if !cs.isEmpty && cs.all isIdentChar then some (String.mk cs) else none

/-- Split a character list at the first occurrence of `c`; `none` when `c`
does not occur. -/
def splitOnFirst (c : Char) : List Char → Option (List Char × List Char)
  | [] => none
  | x :: xs =>
    if x == c then some ([], xs)
    else (splitOnFirst c xs).map (fun p => (x :: p.1, p.2))

/-- Strict semantic-version parsing on a trimmed character list (leading
`v` already removed): `MAJOR.MINOR.PATCH[-PRERELEASE][+BUILD]`. -/
def semverParseCore (cs : List Char) : Option SemVer :=
  let withBuild := match splitOnFirst '+' cs with
    | some p => (p.1, some p.2)
    | none => (cs, none)
  let withPre := match splitOnFirst '-' withBuild.1 with
    | some p => (p.1, some p.2)
    | none => (withBuild.1, none)
  match withPre.1.splitOn '.' with
  | [ma, mi, pa] =>
    match parseMainNum ma, parseMainNum mi, parseMainNum pa with
    | some major, some minor, some patch =>
      let pre : Option (List (Nat ⊕ String)) := match withPre.2 with
        | none => some []
        | some pcs => (pcs.splitOn '.').mapM parsePreIdent
      let bld : Option (List String) := match withBuild.2 with
        | none => some []
        | some bcs => (bcs.splitOn '.').mapM parseBuildIdent
      match pre, bld with
      | some preIds, some buildIds => some ⟨major, minor, patch, preIds, buildIds⟩
      | _, _ => none
    | _, _, _ => none
  | _ => none

/-- Modelled from the spec: `parse(raw) -> SemanticVersion | null`, strict
semantic-version parsing that returns null (not an error) on failure; the
library trims the input, rejects overlong inputs and accepts one optional
leading `v`. -/
def semverParse (s : String) : Option SemVer :=
  if s.data.length > 256 then none
  else
    match trimChars s.data with
    | 'v' :: rest => semverParseCore rest
    | cs => semverParseCore cs

/-- Drop a leading `.NUM` coerced component (up to 16 digits), as in the
library's coercion regular expression. -/
def coerceComp (r : List Char) : Option (Nat × List Char) :=
  match r with
  | '.' :: rest =>
    let ds := rest.takeWhile Char.isDigit
    if !ds.isEmpty && decide (ds.length ≤ 16) then
      some (digitsToNat ds, rest.dropWhile Char.isDigit)
    else none
  | _ => none

/-- Assemble the coerced triple from a leading digit run `ds` and the
remaining characters. -/
def mkCoerced (ds : List Char) (r1 : List Char) : Nat × Nat × Nat :=
  match coerceComp r1 with
  | none => (digitsToNat ds, 0, 0)
  | some p =>
    match coerceComp p.2 with
    | none => (digitsToNat ds, p.1, 0)
    | some q => (digitsToNat ds, p.1, q.1)

/-- Scan for the first digit run of length at most 16 and read up to three
dot-separated numeric components from it; fuelled by the input length. -/
def coerceScan : Nat → List Char → Option (Nat × Nat × Nat)
  | 0, _ => none
  | _, [] => none
  | fuel + 1, c :: rest =>
    if c.isDigit then
      let ds := (c :: rest).takeWhile Char.isDigit
      let r1 := (c :: rest).dropWhile Char.isDigit
      if ds.length ≤ 16 then some (mkCoerced ds r1) else coerceScan fuel r1
    else coerceScan fuel rest

/-- Modelled from the spec: `coerce(raw)`, best-effort normalization of a
loosely-formatted version-like string (e.g. missing patch component, extra
prefix) into a version; returns null when no numeric component is found.
The npm library returns a `SemVer` instance (not a string), which the final
`parse` call in `getReleaseTag` passes through unchanged. -/
def coerce (s : String) : Option SemVer :=
  (coerceScan s.data.length s.data).map (fun t => ⟨t.1, t.2.1, t.2.2, [], []⟩)

/-! ## Event context

The source reads the global `context` from `@actions/github`: its
`eventName` and its webhook `payload`.  The payload fields the source
touches are `release` (with `tag_name` and `prerelease`), `created` and
`ref`; each may be absent, which the embedding renders with `Option`. -/

/-- The `release` object of a release webhook payload, as read by the
source: `tag_name` (possibly absent) and the `prerelease` flag. -/
structure ReleasePayload where
  tag_name : Option String
  prerelease : Bool
deriving DecidableEq

/-- The webhook payload fields read by `Functions.Private`. -/
structure Payload where
  release : Option ReleasePayload
  created : Option Bool
  ref : Option String
deriving DecidableEq

/-- The triggering event's context: event name plus payload. -/
structure EventContext where
  eventName : String
  payload : Payload
deriving DecidableEq

/-- Embeds `isRelease`: the triggering event is a release. -/
def isRelease (ctx : EventContext) : Bool :=
  ctx.eventName == "release"

/-- Embeds `isPreRelease`: `context.payload.release?.prerelease === true`. -/
def isPreRelease (ctx : EventContext) : Bool :=
  match ctx.payload.release with
  | some rel => rel.prerelease
  | none => false

/-- Embeds `isPublicRelease`: `isRelease() && !isPreRelease()`. -/
def isPublicRelease (ctx : EventContext) : Bool :=
  isRelease ctx && !isPreRelease ctx

/-- Embeds `isPush`: the triggering event is a push. -/
def isPush (ctx : EventContext) : Bool :=
  ctx.eventName == "push"

/-- Embeds `isNewRefPush`: `isPush() && context.payload.created === true`. -/
def isNewRefPush (ctx : EventContext) : Bool :=
  isPush ctx && ctx.payload.created == some true

/-- Embeds `isBranchPush`:
`isNewRefPush() && context.payload.ref.startsWith('refs/heads/')`.
The source accesses `payload.ref` without optional chaining, so a push
context with no `ref` makes the right conjunct throw; the embedding renders
that as `none`, and `some b` as a normal return of `b`. -/
def isBranchPush (ctx : EventContext) : Option Bool :=
  if isNewRefPush ctx then
    ctx.payload.ref.map (fun r => strStarts r ("refs/heads/"))
  else some false

/-- Embeds `isTagPush`:
`isNewRefPush() && context.payload.ref.startsWith('refs/tags/')`, with the
same `Option` rendering of the unguarded `payload.ref` access. -/
def isTagPush (ctx : EventContext) : Option Bool :=
  if isNewRefPush ctx then
    ctx.payload.ref.map (fun r => strStarts r ("refs/tags/"))
  else some false

/-! ## Ref upserter (`createRef`)

The source queries `github.rest.git.listMatchingRefs` for `refName`, looks
for a returned ref whose full name ends with `refName`, and then issues
either one forced `updateRef` or one `createRef` mutation, targeting
`process.env.GITHUB_SHA`.  The embedding takes the remote's answer to the
matching-refs query as a function and returns the ordered trace of remote
calls; `context.repo` only addresses the remote and is absorbed into that
interface, and the ambient `GITHUB_SHA` is the explicit `sha` argument. -/

/-- One element of the `listMatchingRefs` response: the full ref name. -/
structure RefObj where
  ref : String
deriving DecidableEq

/-- A remote call issued by `createRef`, in the order issued. -/
inductive RemoteCall where
  | listMatching (ref : String)
  | updateRef (ref : String) (sha : String) (force : Bool)
  | createRefCall (ref : String) (sha : String)
deriving DecidableEq

/-- Embeds `createRef`: query the refs matching `refName`, then update
(forced) if some returned ref's full name ends with `refName`, otherwise
create `refs/{refName}`; returns the trace of remote calls issued. -/
def createRef (remote : String → List RefObj) (refName sha : String) :
    List RemoteCall :=
  let matchingRefs := remote refName
  match matchingRefs.find? (fun refObj => strEnds refObj.ref refName) with
  | some _ =>
    [RemoteCall.listMatching refName, RemoteCall.updateRef refName sha true]
  | none =>
    [RemoteCall.listMatching refName,
      RemoteCall.createRefCall ("refs/" ++ refName) sha]

/-! ## Ref enumerator (`listAllRefs`)

The source is an async generator looping over GraphQL pages: it queries with
the current cursor (`undefined` on the first iteration), yields
`(semverParse(ref.name), ref.object.shaId)` for each ref whose name parses,
then either advances the cursor (`hasNextPage`) or breaks.  The embedding
takes the remote's successive responses as a sequence `resp : Nat → _`,
fuels the unbounded loop, and returns the list of cursors passed to each
query together with the yielded pairs; `none` means the fuel ran out before
the loop exited. -/

/-- The target object of a GraphQL ref node: the commit id. -/
structure GitObject where
  shaId : String
deriving DecidableEq

/-- A GraphQL ref: name (relative to the queried namespace) and target. -/
structure GitRef where
  name : String
  object : GitObject
deriving DecidableEq

/-- One node of the GraphQL refs list, wrapping a ref. -/
structure RefNode where
  ref : GitRef
deriving DecidableEq

/-- GraphQL pagination info: more-pages flag and end cursor. -/
structure PageInfo where
  hasNextPage : Bool
  endCursor : String
deriving DecidableEq

/-- The `refs` field of one GraphQL response page. -/
structure GraphQlRefs where
  refsList : List RefNode
  pageInfo : PageInfo
deriving DecidableEq

/-- One GraphQL response: the queried repository. -/
structure GraphQlQueryRepository where
  refs : GraphQlRefs
deriving DecidableEq

/-- The pairs yielded for one page: for each ref in the page, the parsed
version paired with the commit id, skipping refs whose names do not parse. -/
def processPage (repository : GraphQlQueryRepository) :
    List (SemVer × String) :=
  repository.refs.refsList.filterMap
    (fun node => (semverParse node.ref.name).map
      (fun v => (v, node.ref.object.shaId)))

/-- The body of the `listAllRefs` pagination loop: `resp i` is the remote's
response to the `i`-th query issued, `cursor` the pagination cursor passed
with that query (`none` embeds the initial `undefined`).  Returns the
cursors passed to each query and all yielded pairs, or `none` when the fuel
ran out before the loop broke. -/
def listAllRefsGo (resp : Nat → GraphQlQueryRepository) :
    Nat → Nat → Option String →
      Option (List (Option String) × List (SemVer × String))
  | 0, _, _ => none
  | fuel + 1, i, cursor =>
    let repository := resp i
    if repository.refs.pageInfo.hasNextPage then
      (listAllRefsGo resp fuel (i + 1)
          (some repository.refs.pageInfo.endCursor)).map
        (fun rest => (cursor :: rest.1, processPage repository ++ rest.2))
    else some ([cursor], processPage repository)

/-- Embeds `listAllRefs`: run the pagination loop from the first query,
whose cursor is the uninitialized `nextPage` (`none`). -/
def listAllRefs (resp : Nat → GraphQlQueryRepository) (fuel : Nat) :
    Option (List (Option String) × List (SemVer × String)) :=
  listAllRefsGo resp fuel 0 none

/-! ## Version extraction (`getPushRefVersion`, `getReleaseTag`) -/

/-- Strip a leading occurrence of `pat` from `s`; embeds
`s.replace(new RegExp('^' + pat), '')` for a literal pattern. -/
def dropStart (s pat : String) : String :=
  if strStarts s pat then String.mk (s.data.drop pat.data.length) else s

/-- Embeds `getPushRefVersion`: strip `refs/{preferredRef}/` from
`payload.ref` (absent ref propagates through the optional chain) and parse
the remainder strictly.  The declared TypeScript return type is `SemVer`,
but `semverParse` returns null on failure, so the embedding returns
`Option SemVer`. -/
def getPushRefVersion (preferredRef : String) (ctx : EventContext) :
    Option SemVer :=
  let refName : Option String :=
    ctx.payload.ref.map
      (fun r => dropStart r ("refs/" ++ preferredRef ++ "/"))
  match refName with
  | some s => semverParse s
  | none => none

/-- The value of the TypeScript variable `tagName: string | SemVer`, which
may also hold `undefined`/`null` (rendered `nullv`). -/
inductive TagVal where
  | str (s : String)
  | sv (v : SemVer)
  | nullv
deriving DecidableEq

/-- The library's `parse` applied to a `string | SemVer | null` value:
parses strings, passes `SemVer` instances through, maps null to null. -/
def semverParseVal : TagVal → Option SemVer
  | TagVal.str s => semverParse s
  | TagVal.sv v => some v
  | TagVal.nullv => none

/-- The library's `coerce` applied to a `string | SemVer | null` value:
coerces strings, passes `SemVer` instances through, maps null to null. -/
def coerceVal : TagVal → Option SemVer
  | TagVal.str s => coerce s
  | TagVal.sv v => some v
  | TagVal.nullv => none

/-- Embeds `getReleaseTag`: take `payload.release?.tag_name`, replace it by
`coerce(tagName)` when the release is a pre-release, and strictly parse the
result.  As in `getPushRefVersion`, the declared non-nullable return type is
rendered `Option SemVer`. -/
def getReleaseTag (ctx : EventContext) : Option SemVer :=
  let tagName : TagVal := match ctx.payload.release.bind
      (fun rel => rel.tag_name) with
    | some s => TagVal.str s
    | none => TagVal.nullv
  let tagName : TagVal := if isPreRelease ctx then
      match coerceVal tagName with
      | some v => TagVal.sv v
      | none => TagVal.nullv
    else tagName
  semverParseVal tagName

/-! ## Helper lemmas -/

/-- A matched pattern pins down the matched characters position by
position. -/
theorem listStarts_agree :
    ∀ (p s : List Char), listStarts p s = true →
      ∀ i, i < p.length → s.get? i = p.get? i := by
  intro p
  induction p with
  | nil =>
    intro s h i hi
    simp at hi
  | cons a ps ih =>
    intro s h i hi
    cases s with
    | nil => simp [listStarts] at h
    | cons b ss =>
      rw [listStarts, Bool.and_eq_true, beq_iff_eq] at h
      obtain ⟨hab, hrest⟩ := h
      cases i with
      | zero => simp [hab]
      | succ j =>
        simp only [List.get?]
        exact ih ss hrest j (by simpa using hi)

/-- No string starts with both `refs/heads/` and `refs/tags/`: the two
patterns disagree at position 5. -/
theorem not_starts_heads_and_tags (s : String) :
    ¬(strStarts s ("refs/heads/") = true ∧ strStarts s ("refs/tags/") = true) := by
  rintro ⟨h1, h2⟩
  have g1 := listStarts_agree (String.data ("refs/heads/")) s.data h1 5 (by decide)
  have g2 := listStarts_agree (String.data ("refs/tags/")) s.data h2 5 (by decide)
  rw [g1] at g2
  simp at g2

/-! ## Claims about the event classifier -/

/-- C7: for every event context, `isPublicRelease` returns true if and only
if `isRelease` returns true and `isPreRelease` returns false. -/
theorem isPublicRelease_iff (ctx : EventContext) :
    isPublicRelease ctx = true ↔
      (isRelease ctx = true ∧ isPreRelease ctx = false) := by
  simp [isPublicRelease, Bool.and_eq_true, Bool.not_eq_true']

/-- Witness for C7 at the spec's scenario: a public release context. -/
theorem isPublicRelease_iff_witness :
    isPublicRelease ⟨"release", ⟨some ⟨some ("2.0.0"), false⟩, none, none⟩⟩ = true ↔
      (isRelease ⟨"release", ⟨some ⟨some ("2.0.0"), false⟩, none, none⟩⟩ = true ∧
        isPreRelease ⟨"release", ⟨some ⟨some ("2.0.0"), false⟩, none, none⟩⟩ = false) :=
  isPublicRelease_iff ⟨"release", ⟨some ⟨some ("2.0.0"), false⟩, none, none⟩⟩

/-- C8: for every event context, `isBranchPush` and `isTagPush` are never
both true (`some true`, a normal return of `true`), and whenever either is
true, `isNewRefPush` is also true. -/
theorem branchPush_tagPush_exclusive (ctx : EventContext) :
    ¬(isBranchPush ctx = some true ∧ isTagPush ctx = some true) ∧
      (isBranchPush ctx = some true → isNewRefPush ctx = true) ∧
      (isTagPush ctx = some true → isNewRefPush ctx = true) := by
  cases hn : isNewRefPush ctx
  · simp [isBranchPush, isTagPush, hn]
  · cases hr : ctx.payload.ref with
    | none => simp [isBranchPush, isTagPush, hn, hr]
    | some r =>
      refine ⟨?_, fun _ => rfl, fun _ => rfl⟩
      rintro ⟨h1, h2⟩
      simp [isBranchPush, isTagPush, hn, hr] at h1 h2
      exact not_starts_heads_and_tags r ⟨h1, h2⟩

/-- Witness for C8 at the spec's scenarios: a newly-created branch push and
a newly-created tag push. -/
theorem branchPush_tagPush_exclusive_witness :
    isNewRefPush ⟨"push", ⟨none, some true, some ("refs/heads/main")⟩⟩ = true ∧
      isNewRefPush ⟨"push", ⟨none, some true, some ("refs/tags/v1.0.0")⟩⟩ = true :=
  ⟨(branchPush_tagPush_exclusive
      ⟨"push", ⟨none, some true, some ("refs/heads/main")⟩⟩).2.1 (by decide),
    (branchPush_tagPush_exclusive
      ⟨"push", ⟨none, some true, some ("refs/tags/v1.0.0")⟩⟩).2.2 (by decide)⟩

/-! ## Claims about version extraction -/

/-- C6: coercion is applied to the release tag name if and only if the
release is a pre-release: `getReleaseTag` parses `coerce(tag_name)` when
the pre-release flag is true (strict parsing is the identity on the
`SemVer` value `coerce` produces) and parses `tag_name` strictly when it is
false; `getPushRefVersion` likewise parses the stripped push ref strictly,
with no coercion. -/
theorem releaseTag_coercion (ctx : EventContext) (preferredRef : String) :
    (getReleaseTag ctx =
      if isPreRelease ctx then
        (ctx.payload.release.bind (fun rel => rel.tag_name)).bind coerce
      else
        (ctx.payload.release.bind (fun rel => rel.tag_name)).bind semverParse) ∧
    getPushRefVersion preferredRef ctx =
      (ctx.payload.ref.map
        (fun r => dropStart r ("refs/" ++ preferredRef ++ "/"))).bind semverParse := by
  constructor
  · cases hp : isPreRelease ctx <;>
      cases hr : ctx.payload.release.bind (fun rel => rel.tag_name)
    · simp [getReleaseTag, hp, hr, semverParseVal]
    · simp [getReleaseTag, hp, hr, semverParseVal]
    · simp [getReleaseTag, hp, hr, semverParseVal, coerceVal]
    · rename_i s
      cases hc : coerce s <;>
        simp [getReleaseTag, hp, hr, semverParseVal, coerceVal, hc]
  · cases hr : ctx.payload.ref <;> simp [getPushRefVersion, hr]

/-- Witness for C6 at the spec's scenarios: the pre-release tag
`v3.1-beta` is coerced to `3.1.0`, the public tag `2.0.0` is parsed
strictly. -/
theorem releaseTag_coercion_witness :
    getReleaseTag ⟨"release", ⟨some ⟨some ("v3.1-beta"), true⟩, none, none⟩⟩ =
        some ⟨3, 1, 0, [], []⟩ ∧
      getReleaseTag ⟨"release", ⟨some ⟨some ("2.0.0"), false⟩, none, none⟩⟩ =
        some ⟨2, 0, 0, [], []⟩ :=
  ⟨by
    rw [(releaseTag_coercion
        ⟨"release", ⟨some ⟨some ("v3.1-beta"), true⟩, none, none⟩⟩ ("heads")).1]
    decide,
  by
    rw [(releaseTag_coercion
        ⟨"release", ⟨some ⟨some ("2.0.0"), false⟩, none, none⟩⟩ ("heads")).1]
    decide⟩

/-- C10: when the required context field is absent or unparseable,
`getReleaseTag` and `getPushRefVersion` return null (here `none`) rather
than raising an error, despite the declared non-nullable `SemVer` return
type: a release with no `tag_name`, a pre-release whose tag cannot be
coerced, and a push whose ref does not parse after stripping the namespace
all yield null. -/
theorem extraction_yields_null (ctx : EventContext) (preferredRef t r : String) :
    (ctx.payload.release.bind (fun rel => rel.tag_name) = none →
      getReleaseTag ctx = none) ∧
    (isPreRelease ctx = true →
      ctx.payload.release.bind (fun rel => rel.tag_name) = some t →
      coerce t = none → getReleaseTag ctx = none) ∧
    (ctx.payload.ref = none → getPushRefVersion preferredRef ctx = none) ∧
    (ctx.payload.ref = some r →
      semverParse (dropStart r ("refs/" ++ preferredRef ++ "/")) = none →
      getPushRefVersion preferredRef ctx = none) := by
  refine ⟨fun h => ?_, fun hp ht hc => ?_, fun h => ?_, fun h hparse => ?_⟩
  · cases hp : isPreRelease ctx <;>
      simp [getReleaseTag, h, hp, semverParseVal, coerceVal]
  · simp [getReleaseTag, hp, ht, coerceVal, hc, semverParseVal]
  · simp [getPushRefVersion, h]
  · simp [getPushRefVersion, h, hparse]

/-- Witness for C10: a release with no tag name, a pre-release tagged
`no-digits`, a push with no ref, and a branch push of `main` all yield
null. -/
theorem extraction_yields_null_witness :
    getReleaseTag ⟨"release", ⟨some ⟨none, false⟩, none, none⟩⟩ = none ∧
      getReleaseTag ⟨"release", ⟨some ⟨some ("no-digits"), true⟩, none, none⟩⟩ = none ∧
      getPushRefVersion ("heads") ⟨"push", ⟨none, some true, none⟩⟩ = none ∧
      getPushRefVersion ("heads")
        ⟨"push", ⟨none, some true, some ("refs/heads/main")⟩⟩ = none :=
  ⟨(extraction_yields_null ⟨"release", ⟨some ⟨none, false⟩, none, none⟩⟩
      ("heads") ("") ("")).1 rfl,
    (extraction_yields_null
      ⟨"release", ⟨some ⟨some ("no-digits"), true⟩, none, none⟩⟩
      ("heads") ("no-digits") ("")).2.1 rfl rfl (by decide),
    (extraction_yields_null ⟨"push", ⟨none, some true, none⟩⟩
      ("heads") ("") ("")).2.2.1 rfl,
    (extraction_yields_null ⟨"push", ⟨none, some true, some ("refs/heads/main")⟩⟩
      ("heads") ("") ("refs/heads/main")).2.2.2 rfl (by decide)⟩

/-- C4 counterexample: on a release event with no tag name (and on a push
event with no ref) the source does not fail with an error — `getReleaseTag`
and `getPushRefVersion` return normally with the ordinary null value, which
is moreover equal to what a merely-unparseable tag produces, so the missing
field is silently absorbed rather than surfaced. -/
theorem missing_context_not_fatal :
    isRelease ⟨"release", ⟨some ⟨none, false⟩, none, none⟩⟩ = true ∧
      (Payload.mk (some ⟨none, false⟩) none none).release.bind
        (fun rel => rel.tag_name) = none ∧
      getReleaseTag ⟨"release", ⟨some ⟨none, false⟩, none, none⟩⟩ = none ∧
      getReleaseTag ⟨"release", ⟨some ⟨none, false⟩, none, none⟩⟩ =
        getReleaseTag ⟨"release", ⟨some ⟨some ("not-a-version"), false⟩, none, none⟩⟩ ∧
      isPush ⟨"push", ⟨none, some true, none⟩⟩ = true ∧
      getPushRefVersion ("heads") ⟨"push", ⟨none, some true, none⟩⟩ = none := by
  refine ⟨rfl, rfl, rfl, ?_, rfl, rfl⟩
  decide

/-- C4 as amended: when a required context field is missing (no tag name on
a release event, no ref on a push event), `getReleaseTag` and
`getPushRefVersion` return null without raising an error; no remote
interface is involved (neither function takes one). -/
theorem missing_context_returns_null (ctx : EventContext) (preferredRef : String) :
    (isRelease ctx = true →
      ctx.payload.release.bind (fun rel => rel.tag_name) = none →
      getReleaseTag ctx = none) ∧
    (isPush ctx = true → ctx.payload.ref = none →
      getPushRefVersion preferredRef ctx = none) := by
  refine ⟨fun _ h => ?_, fun _ h => ?_⟩
  · cases hp : isPreRelease ctx <;>
      simp [getReleaseTag, h, hp, semverParseVal, coerceVal]
  · simp [getPushRefVersion, h]

/-- Witness for the amended C4: the same missing-field contexts as the
counterexample, discharged through the amended theorem. -/
theorem missing_context_returns_null_witness :
    getReleaseTag ⟨"release", ⟨some ⟨none, false⟩, none, none⟩⟩ = none ∧
      getPushRefVersion ("heads") ⟨"push", ⟨none, some true, none⟩⟩ = none :=
  ⟨(missing_context_returns_null ⟨"release", ⟨some ⟨none, false⟩, none, none⟩⟩
      ("heads")).1 rfl rfl,
    (missing_context_returns_null ⟨"push", ⟨none, some true, none⟩⟩
      ("heads")).2 rfl rfl⟩

/-! ## Claims about the ref upserter -/

/-- Is a remote call a (forced or unforced) ref update mutation? -/
def isUpdateCall : RemoteCall → Bool
  | RemoteCall.updateRef _ _ _ => true
  | _ => false

/-- Is a remote call a ref create mutation? -/
def isCreateCall : RemoteCall → Bool
  | RemoteCall.createRefCall _ _ => true
  | _ => false

/-- The search for a matching ref succeeds exactly when some element
satisfies the predicate. -/
theorem find?_isSome_eq_any {α : Type} (p : α → Bool) (l : List α) :
    (l.find? p).isSome = l.any p := by
  induction l with
  | nil => rfl
  | cons a t ih =>
    by_cases h : p a = true
    · simp [List.find?_cons, h]
    · simp only [Bool.not_eq_true] at h
      simp [List.find?_cons, h, ih]

/-- C1: for every ref name and every remote ref set, `createRef` first
queries the matching refs and then performs exactly one mutation: when some
returned ref's full name ends with the given ref name, exactly one forced
update and zero creates; otherwise exactly one create of `refs/{refName}`
and zero updates — never both. -/
theorem createRef_upsert (remote : String → List RefObj) (refName sha : String) :
    (createRef remote refName sha).head? = some (RemoteCall.listMatching refName) ∧
    (if (remote refName).any (fun refObj => strEnds refObj.ref refName) then
      createRef remote refName sha =
          [RemoteCall.listMatching refName,
            RemoteCall.updateRef refName sha true] ∧
        (createRef remote refName sha).countP isUpdateCall = 1 ∧
        (createRef remote refName sha).countP isCreateCall = 0
    else
      createRef remote refName sha =
          [RemoteCall.listMatching refName,
            RemoteCall.createRefCall ("refs/" ++ refName) sha] ∧
        (createRef remote refName sha).countP isCreateCall = 1 ∧
        (createRef remote refName sha).countP isUpdateCall = 0) := by
  have hfind :=
    find?_isSome_eq_any (fun refObj => strEnds refObj.ref refName) (remote refName)
  simp only [createRef]
  cases hf : (remote refName).find? (fun refObj => strEnds refObj.ref refName) with
  | none =>
    rw [hf] at hfind
    simp only [Option.isSome_none] at hfind
    rw [← hfind]
    simp [List.countP_cons, List.countP_nil, isUpdateCall, isCreateCall]
  | some x =>
    rw [hf] at hfind
    simp only [Option.isSome_some] at hfind
    rw [← hfind]
    simp [List.countP_cons, List.countP_nil, isUpdateCall, isCreateCall]

/-- A remote that answers the matching-refs query with one exact match. -/
def remoteA : String → List RefObj := fun _ => [⟨"refs/tags/v1"⟩]

/-- A remote that answers with a non-matching ref before the match. -/
def remoteB : String → List RefObj := fun _ => [⟨"other"⟩, ⟨"refs/tags/v1"⟩]

/-- A remote that answers the matching-refs query with no matches. -/
def remoteEmpty : String → List RefObj := fun _ => []

/-- Witness for C1: upsert of `tags/v1` against a remote where it exists
(one forced update) and against one where it does not (one create). -/
theorem createRef_upsert_witness :
    createRef remoteA ("tags/v1") ("sha0") =
        [RemoteCall.listMatching ("tags/v1"),
          RemoteCall.updateRef ("tags/v1") ("sha0") true] ∧
      createRef remoteEmpty ("tags/v1") ("sha0") =
        [RemoteCall.listMatching ("tags/v1"),
          RemoteCall.createRefCall ("refs/tags/v1") ("sha0")] := by
  constructor
  · have h := (createRef_upsert remoteA ("tags/v1") ("sha0")).2
    rw [if_pos (by decide)] at h
    exact h.1
  · have h := (createRef_upsert remoteEmpty ("tags/v1") ("sha0")).2
    rw [if_neg (by decide)] at h
    exact h.1

/-- C5: the upsert is a total function of (ref name, desired commit id) and
of the remote's answer to "does this exact ref name already exist": two
runs with the same ref name, the same commit id and the same existence
answer issue the same calls, whatever else the two remotes return.  No
other state occurs in `createRef`'s signature. -/
theorem createRef_deterministic (remote₁ remote₂ : String → List RefObj)
    (refName sha : String)
    (h : (remote₁ refName).any (fun refObj => strEnds refObj.ref refName) =
      (remote₂ refName).any (fun refObj => strEnds refObj.ref refName)) :
    createRef remote₁ refName sha = createRef remote₂ refName sha := by
  have h1 :=
    find?_isSome_eq_any (fun refObj => strEnds refObj.ref refName) (remote₁ refName)
  have h2 :=
    find?_isSome_eq_any (fun refObj => strEnds refObj.ref refName) (remote₂ refName)
  simp only [createRef]
  cases hf1 : (remote₁ refName).find? (fun refObj => strEnds refObj.ref refName) with
  | none =>
    cases hf2 : (remote₂ refName).find? (fun refObj => strEnds refObj.ref refName) with
    | none => rfl
    | some y =>
      rw [hf1] at h1
      rw [hf2] at h2
      simp only [Option.isSome_none, Option.isSome_some] at h1 h2
      rw [← h1, ← h2] at h
      exact absurd h (by decide)
  | some x =>
    cases hf2 : (remote₂ refName).find? (fun refObj => strEnds refObj.ref refName) with
    | none =>
      rw [hf1] at h1
      rw [hf2] at h2
      simp only [Option.isSome_none, Option.isSome_some] at h1 h2
      rw [← h1, ← h2] at h
      exact absurd h (by decide)
    | some y => rfl

/-- Witness for C5: two remotes returning different ref sets with the same
existence answer for `tags/v1` produce the same call trace. -/
theorem createRef_deterministic_witness :
    createRef remoteA ("tags/v1") ("sha0") =
      createRef remoteB ("tags/v1") ("sha0") :=
  createRef_deterministic remoteA remoteB ("tags/v1") ("sha0") (by decide)

/-! ## Claims about the ref enumerator -/

/-- Running the pagination loop from query index `i`: when the remote
reports more pages for `k` responses and no next page on the `k`-th, any
fuel of at least `k + 1` makes the loop exit, issuing exactly `k + 1`
queries — the entry cursor first, then each response's end cursor — and
yielding the processed pages in fetch order. -/
theorem listAllRefsGo_run (resp : Nat → GraphQlQueryRepository) :
    ∀ (k i m : Nat) (cursor : Option String),
      (∀ j, j < k → (resp (i + j)).refs.pageInfo.hasNextPage = true) →
      (resp (i + k)).refs.pageInfo.hasNextPage = false →
      listAllRefsGo resp (k + 1 + m) i cursor =
        some (cursor :: (List.range k).map
            (fun j => some (resp (i + j)).refs.pageInfo.endCursor),
          ((List.range (k + 1)).map
            (fun j => processPage (resp (i + j)))).flatten) := by
  intro k
  induction k with
  | zero =>
    intro i m cursor hlt hstop
    rw [Nat.add_zero] at hstop
    rw [show 0 + 1 + m = m + 1 from by omega]
    simp [listAllRefsGo, hstop, List.range_succ]
  | succ k ih =>
    intro i m cursor hlt hstop
    have h0 : (resp i).refs.pageInfo.hasNextPage = true := by
      have h := hlt 0 (Nat.succ_pos k)
      rwa [Nat.add_zero] at h
    have hlt' : ∀ j, j < k → (resp (i + 1 + j)).refs.pageInfo.hasNextPage = true := by
      intro j hj
      have h := hlt (j + 1) (by omega)
      rwa [show i + (j + 1) = i + 1 + j from by omega] at h
    have hstop' : (resp (i + 1 + k)).refs.pageInfo.hasNextPage = false := by
      rw [show i + 1 + k = i + (k + 1) from by omega]
      exact hstop
    rw [show k + 1 + 1 + m = (k + 1 + m) + 1 from by omega]
    simp only [listAllRefsGo, h0, if_true]
    rw [ih (i + 1) m (some (resp i).refs.pageInfo.endCursor) hlt' hstop']
    have hq : (List.range (k + 1)).map
          (fun j => some (resp (i + j)).refs.pageInfo.endCursor) =
        some (resp i).refs.pageInfo.endCursor ::
          (List.range k).map
            (fun j => some (resp (i + 1 + j)).refs.pageInfo.endCursor) := by
      rw [List.range_succ_eq_map, List.map_cons, List.map_map, Nat.add_zero]
      refine congrArg _ (List.map_congr_left ?_)
      intro a _
      simp only [Function.comp_apply, Nat.succ_eq_add_one]
      rw [show i + (a + 1) = i + 1 + a from by omega]
    have hy : ((List.range (k + 1 + 1)).map
          (fun j => processPage (resp (i + j)))).flatten =
        processPage (resp i) ++
          ((List.range (k + 1)).map
            (fun j => processPage (resp (i + 1 + j)))).flatten := by
      rw [List.range_succ_eq_map, List.map_cons, List.map_map, List.flatten_cons,
        Nat.add_zero]
      refine congrArg _ (congrArg _ (List.map_congr_left ?_))
      intro a _
      simp only [Function.comp_apply, Nat.succ_eq_add_one]
      rw [show i + (a + 1) = i + 1 + a from by omega]
    simp only [Option.map_some']
    rw [hq, hy]

/-- A remote answering with two pages: the first holds `v1.0.0` (valid) and
`latest` (invalid) and reports cursor `abc`, the second holds `2.0.0` and
reports no further pages. -/
def exampleResp : Nat → GraphQlQueryRepository
  | 0 => ⟨⟨[⟨⟨"v1.0.0", ⟨"sha1"⟩⟩⟩, ⟨⟨"latest", ⟨"sha2"⟩⟩⟩], ⟨true, "abc"⟩⟩⟩
  | _ => ⟨⟨[⟨⟨"2.0.0", ⟨"sha3"⟩⟩⟩], ⟨false, "def"⟩⟩⟩

/-- A remote answering with a single last page whose only ref does not
parse as a semantic version. -/
def exampleEmptyResp : Nat → GraphQlQueryRepository :=
  fun _ => ⟨⟨[⟨⟨"latest", ⟨"sha9"⟩⟩⟩], ⟨false, "zzz"⟩⟩⟩

/-- C3: for every remote response sequence of `N` pages (`N > 1`, the first
`N - 1` reporting a next page and the last not), the enumerator issues
exactly `N` page queries, passes the empty cursor on the first query and the
previous response's end cursor on each subsequent query, and yields the
parsed refs of every page in the order the pages were fetched. -/
theorem listAllRefs_pagination (resp : Nat → GraphQlQueryRepository)
    (N fuel : Nat) (hN : 1 < N)
    (hnext : ∀ i, i + 1 < N → (resp i).refs.pageInfo.hasNextPage = true)
    (hstop : (resp (N - 1)).refs.pageInfo.hasNextPage = false)
    (hfuel : N ≤ fuel) :
    listAllRefs resp fuel =
      some (none :: (List.range (N - 1)).map
          (fun j => some (resp j).refs.pageInfo.endCursor),
        ((List.range N).map (fun j => processPage (resp j))).flatten) ∧
    (none :: (List.range (N - 1)).map
        (fun j => some (resp j).refs.pageInfo.endCursor)).length = N := by
  obtain ⟨k, rfl⟩ : ∃ k, N = k + 1 := ⟨N - 1, by omega⟩
  obtain ⟨m, rfl⟩ : ∃ m, fuel = k + 1 + m := ⟨fuel - (k + 1), by omega⟩
  have hrun := listAllRefsGo_run resp k 0 m none
    (fun j hj => by simpa using hnext j (by omega)) (by simpa using hstop)
  constructor
  · show listAllRefsGo resp (k + 1 + m) 0 none = _
    rw [hrun]
    simp only [Nat.zero_add, Nat.add_sub_cancel]
  · simp only [List.length_cons, List.length_map, List.length_range]
    omega

/-- Witness for C3 at the spec's scenario: two pages, cursor `abc` after
the first, stopping after the second. -/
theorem listAllRefs_pagination_witness :
    listAllRefs exampleResp 2 =
        some (none :: (List.range 1).map
            (fun j => some (exampleResp j).refs.pageInfo.endCursor),
          ((List.range 2).map (fun j => processPage (exampleResp j))).flatten) ∧
      (none :: (List.range 1).map
          (fun j => some (exampleResp j).refs.pageInfo.endCursor)).length = 2 :=
  listAllRefs_pagination exampleResp 2 2 (by omega)
    (fun i hi => by
      have h : i = 0 := by omega
      rw [h]
      rfl)
    (by rfl) (by omega)

/-- C9: for every remote response sequence that reports no next page after
`k` further pages, the pagination loop exits within any fuel above `k` (the
enumeration terminates); when additionally no ref on any fetched page
parses as a semantic version, it yields the empty sequence. -/
theorem listAllRefs_terminates (resp : Nat → GraphQlQueryRepository)
    (fuel k : Nat)
    (hnext : ∀ j, j < k → (resp j).refs.pageInfo.hasNextPage = true)
    (hstop : (resp k).refs.pageInfo.hasNextPage = false)
    (hfuel : k < fuel) :
    (∃ out, listAllRefs resp fuel = some out) ∧
    ((∀ j, j ≤ k → ∀ node ∈ (resp j).refs.refsList,
        semverParse node.ref.name = none) →
      listAllRefs resp fuel =
        some (none :: (List.range k).map
            (fun j => some (resp j).refs.pageInfo.endCursor), [])) := by
  obtain ⟨m, rfl⟩ : ∃ m, fuel = k + 1 + m := ⟨fuel - (k + 1), by omega⟩
  have hrun := listAllRefsGo_run resp k 0 m none
    (fun j hj => by simpa using hnext j hj) (by simpa using hstop)
  have hrun' : listAllRefs resp (k + 1 + m) =
      some (none :: (List.range k).map
          (fun j => some (resp (0 + j)).refs.pageInfo.endCursor),
        ((List.range (k + 1)).map
          (fun j => processPage (resp (0 + j)))).flatten) := hrun
  constructor
  · exact ⟨_, hrun'⟩
  · intro hnone
    rw [hrun']
    have hempty : ∀ x ∈ (List.range (k + 1)).map
        (fun j => processPage (resp (0 + j))), x = [] := by
      intro x hx
      obtain ⟨j, hj, rfl⟩ := List.mem_map.mp hx
      have hj' : j ≤ k := by
        have := List.mem_range.mp hj
        omega
      refine List.filterMap_eq_nil_iff.mpr ?_
      intro node hnode
      rw [hnone j hj' node (by simpa using hnode)]
      rfl
    have hflat : ((List.range (k + 1)).map
        (fun j => processPage (resp (0 + j)))).flatten = [] := by
      rw [List.flatten_eq_nil_iff]
      exact hempty
    rw [hflat]
    simp only [Nat.zero_add]

/-- Witness for C9 at the spec's scenario: a single page whose only ref,
`latest`, is not a semantic version — the enumeration terminates with an
empty yield after one query. -/
theorem listAllRefs_terminates_witness :
    (∃ out, listAllRefs exampleEmptyResp 1 = some out) ∧
      listAllRefs exampleEmptyResp 1 = some ([none], []) := by
  refine ⟨(listAllRefs_terminates exampleEmptyResp 1 0
      (fun j hj => absurd hj (by omega)) (by rfl) (by omega)).1, ?_⟩
  have h := (listAllRefs_terminates exampleEmptyResp 1 0
      (fun j hj => absurd hj (by omega)) (by rfl) (by omega)).2
    (fun j hj node hnode => by
      have he : node = ⟨⟨"latest", ⟨"sha9"⟩⟩⟩ := by
        simpa [exampleEmptyResp] using hnode
      rw [he]
      rfl)
  exact h

/-- Every pair in one processed page comes from a ref of that page whose
name parses strictly to the yielded version. -/
theorem processPage_mem (repository : GraphQlQueryRepository) (v : SemVer)
    (sha : String) (h : (v, sha) ∈ processPage repository) :
    ∃ node ∈ repository.refs.refsList,
      semverParse node.ref.name = some v ∧ node.ref.object.shaId = sha := by
  simp only [processPage, List.mem_filterMap] at h
  obtain ⟨node, hnode, hmap⟩ := h
  cases hp : semverParse node.ref.name with
  | none =>
    rw [hp] at hmap
    simp at hmap
  | some w =>
    rw [hp] at hmap
    simp only [Option.map_some', Option.some.injEq, Prod.mk.injEq] at hmap
    obtain ⟨hw, hsha⟩ := hmap
    exact ⟨node, hnode, by rw [hp, hw], hsha⟩

/-- Every pair yielded by the pagination loop comes from a ref of some
fetched page whose name parses strictly to the yielded version. -/
theorem listAllRefsGo_yield_source (resp : Nat → GraphQlQueryRepository) :
    ∀ (fuel i : Nat) (cursor : Option String) (qs : List (Option String))
      (ys : List (SemVer × String)),
      listAllRefsGo resp fuel i cursor = some (qs, ys) →
      ∀ v sha, (v, sha) ∈ ys →
        ∃ n, ∃ node ∈ (resp n).refs.refsList,
          semverParse node.ref.name = some v ∧
            node.ref.object.shaId = sha := by
  intro fuel
  induction fuel with
  | zero =>
    intro i cursor qs ys h
    simp [listAllRefsGo] at h
  | succ f ih =>
    intro i cursor qs ys h v sha hmem
    simp only [listAllRefsGo] at h
    by_cases hn : (resp i).refs.pageInfo.hasNextPage = true
    · rw [if_pos hn] at h
      cases hrec : listAllRefsGo resp f (i + 1)
          (some (resp i).refs.pageInfo.endCursor) with
      | none =>
        rw [hrec] at h
        simp at h
      | some pr =>
        rw [hrec] at h
        simp only [Option.map_some', Option.some.injEq, Prod.mk.injEq] at h
        obtain ⟨hq, hy⟩ := h
        rw [← hy] at hmem
        rcases List.mem_append.mp hmem with hm | hm
        · exact ⟨i, processPage_mem (resp i) v sha hm⟩
        · exact ih (i + 1) (some (resp i).refs.pageInfo.endCursor) pr.1 pr.2
            (by rw [hrec]) v sha hm
    · rw [if_neg hn] at h
      simp only [Option.some.injEq, Prod.mk.injEq] at h
      obtain ⟨hq, hy⟩ := h
      rw [← hy] at hmem
      exact ⟨i, processPage_mem (resp i) v sha hmem⟩

/-- C2: for every sequence of pages returned by the remote, every
(version, commitId) pair yielded by `listAllRefs` comes from a ref of some
fetched page whose name parses successfully under strict parsing, and the
yielded version is that parse result; refs whose names do not parse are
never yielded, and the enumeration never errors (it is total for
sufficient fuel, by C9). -/
theorem listAllRefs_yields_parsed (resp : Nat → GraphQlQueryRepository)
    (fuel : Nat) (qs : List (Option String)) (ys : List (SemVer × String))
    (hrun : listAllRefs resp fuel = some (qs, ys)) :
    ∀ v sha, (v, sha) ∈ ys →
      ∃ n, ∃ node ∈ (resp n).refs.refsList,
        semverParse node.ref.name = some v ∧ node.ref.object.shaId = sha :=
  fun v sha hm =>
    listAllRefsGo_yield_source resp fuel 0 none qs ys hrun v sha hm

/-- Witness for C2 at the spec's scenario: the yielded pair for `v1.0.0`
traces back to the first page's ref. -/
theorem listAllRefs_yields_parsed_witness :
    ∃ n, ∃ node ∈ (exampleResp n).refs.refsList,
      semverParse node.ref.name = some ⟨1, 0, 0, [], []⟩ ∧
        node.ref.object.shaId = "sha1" :=
  listAllRefs_yields_parsed exampleResp 2
    [none, some ("abc")]
    [(⟨1, 0, 0, [], []⟩, "sha1"), (⟨2, 0, 0, [], []⟩, "sha3")]
    (by decide) ⟨1, 0, 0, [], []⟩ ("sha1") (by decide)

end ActionsTagger
